import Mathlib

/-!
Verification of the tidyss FASTQ sample-sheet module

A shallow embedding of `tidyss/fastq.py`: Python dicts become insertion-ordered
association lists, the four `re` patterns are transcribed into a small regex
AST together with a backtracking matcher reproducing `re.match` semantics
(anchored at the start, greedy/lazy quantifiers, first match in backtracking
order, named capture groups), and the classifier / aggregator / filter /
serialization functions are translated statement by statement.  File I/O is
abstracted: the first line of a FASTQ file is an explicit argument, and the
write/read effects of the serialization boundary are made explicit output.
-/

namespace Tidyss

/-- A Python `dict` with string keys, modelled as an insertion-ordered
association list: lookup returns the first binding, assignment updates an
existing binding in place or appends a new one at the end. -/
abbrev PyDict (β : Type) : Type := List (String × β)

/-- Python `d[k]` / `d.get(k)`: the value bound to `k`, if any. -/
def dget {β : Type} : PyDict β → String → Option β
  | [], _ => none
  | (k, v) :: t, key => if k = key then some v else dget t key

/-- Python `d[k] = v`: update in place if `k` is present, else append `(k, v)`. -/
def dset {β : Type} : PyDict β → String → β → PyDict β
  | [], key, v => [(key, v)]
  | (k, w) :: t, key, v => if k = key then (k, v) :: t else (k, w) :: dset t key v

/-! ## A regex engine for the fragment used by `fastq.py`

The four compiled patterns in the source quantify only single character
classes (`.*`, `.+?`, `\d*`, `[a-zA-Z0-9_-]*`, `[NACTG]*`, `[NACTG]{3,30}`,
`\d{3}`), apply `?` to groups and literals, and use `$` only at the very end,
so the AST below covers them exactly.  `.` is modelled as "any character other
than a newline" (no `DOTALL` flag is set in the source). -/

/-- Abstract syntax for the regex fragment used by the four patterns. -/
inductive RE : Type
  /-- a literal string -/
  | lit (s : String)
  /-- a single character from a class -/
  | cls (p : Char → Bool)
  /-- concatenation -/
  | seq (a b : RE)
  /-- alternation, left alternative preferred -/
  | alt (a b : RE)
  /-- greedy `?` -/
  | opt (a : RE)
  /-- greedy `*` over a character class -/
  | starCls (p : Char → Bool)
  /-- lazy `+?` over a character class -/
  | plusLazyCls (p : Char → Bool)
  /-- greedy `{lo,hi}` over a character class -/
  | repCls (p : Char → Bool) (lo hi : Nat)
  /-- named capture group -/
  | group (name : String) (a : RE)
  /-- anchor `$`: end of string, or just before a trailing newline -/
  | eol

/-- The group dictionary of a match: bindings for the groups that
participated in the match (as in Python, `groupdict` reports `None` — here:
no binding — for a named group that did not participate). -/
abbrev GroupEnv := PyDict String

/-- Length of the maximal prefix consisting of characters in class `p`. -/
def classRunLen (p : Char → Bool) : List Char → Nat
  | [] => 0
  | c :: cs => if p c then classRunLen p cs + 1 else 0

/-- Backtracking matcher in continuation-passing style.  Alternatives are
tried left to right, greedy quantifiers longest first, lazy quantifiers
shortest first, so the first success found is the match the Python engine
reports. -/
def mrun : RE → List Char → GroupEnv → (List Char → GroupEnv → Option (GroupEnv)) → Option (GroupEnv)
  | .lit s, cs, env, k =>
      if s.data.isPrefixOf cs then k (cs.drop s.data.length) env else none
  | .cls p, cs, env, k =>
      match cs with
      | [] => none
      | c :: rest => if p c then k rest env else none
  | .seq a b, cs, env, k => mrun a cs env (fun cs2 env2 => mrun b cs2 env2 k)
  | .alt a b, cs, env, k => (mrun a cs env k) <|> (mrun b cs env k)
  | .opt a, cs, env, k => (mrun a cs env k) <|> k cs env
  | .starCls p, cs, env, k =>
      ((List.range (classRunLen p cs + 1)).reverse).findSome? (fun n => k (cs.drop n) env)
  | .plusLazyCls p, cs, env, k =>
      (List.range' 1 (classRunLen p cs)).findSome? (fun n => k (cs.drop n) env)
  | .repCls p lo hi, cs, env, k =>
      let m := min (classRunLen p cs) hi
      (((List.range (m + 1)).reverse).filter (fun n => lo ≤ n)).findSome?
        (fun n => k (cs.drop n) env)
  | .group name a, cs, env, k =>
      mrun a cs env
        (fun cs2 env2 => k cs2 (dset env2 name (String.mk (cs.take (cs.length - cs2.length)))))
  | .eol, cs, env, k => if cs.isEmpty || cs == ['\n'] then k cs env else none

/-- Python `pattern.match(s)` (i.e. `re.match`): anchored at the start of `s`, may
consume only a prefix, yields the group dictionary of the first match in
backtracking order, or `none`. -/
def pymatch (re : RE) (s : String) : Option (GroupEnv) :=
  mrun re s.data [] (fun _ env => some env)

/-! ### Character classes appearing in the source patterns -/

/-- class `\d` -/
def digitCls (c : Char) : Bool := c.isDigit

/-- class `.` without `DOTALL`: anything but a newline -/
def anyNoNL (c : Char) : Bool := !(c == '\n')

/-- class `[a-zA-Z0-9_-]` -/
def instrCls (c : Char) : Bool := c.isAlphanum || c == '_' || c == '-'

/-- class `[a-zA-Z0-9]` -/
def alnumCls (c : Char) : Bool := c.isAlphanum

/-- class `[NACTG]` -/
def nactgCls (c : Char) : Bool :=
  c == 'N' || c == 'A' || c == 'C' || c == 'T' || c == 'G'

/-- class `[YN]` -/
def ynCls (c : Char) : Bool := c == 'Y' || c == 'N'

/-- class `\s` (ASCII) -/
def wsCls (c : Char) : Bool :=
  c == ' ' || c == '\t' || c == '\n' || c == '\x0b' || c == '\x0c' || c == '\r'

/-- Concatenation of a list of regexes. -/
def seqList (l : List RE) : RE := l.foldr RE.seq (.lit "")

/-! ### The four patterns of the source, transcribed -/

/-- Source pattern `FastqFilename.pattern`:
`(?P<name>.*)(?P<extension>\.fastq|\.fastq\.gz|\.fq|fq\.gz)$` — note that the
last alternative in the source reads `fq\.gz`, without a leading `\.`. -/
def FastqFilename_pattern : RE :=
  seqList
    [ .group "name" (.starCls anyNoNL),
      .group "extension"
        (.alt (.lit ".fastq") (.alt (.lit ".fastq.gz") (.alt (.lit ".fq") (.lit "fq.gz")))),
      .eol ]

/-- Source pattern `IlluminaFastqFilename.pattern`:
`(?P<name>.+?)_?(?P<barcode>[NACTG]{3,30})?_?(?P<lane>L\d{3})?(_)?(?P<read>R\d)?_?(?P<set>\d{3})(?P<extension>\.fastq|\.fastq\.gz)$` -/
def IlluminaFastqFilename_pattern : RE :=
  seqList
    [ .group "name" (.plusLazyCls anyNoNL),
      .opt (.lit "_"),
      .opt (.group "barcode" (.repCls nactgCls 3 30)),
      .opt (.lit "_"),
      .opt (.group "lane" (.seq (.lit "L") (.repCls digitCls 3 3))),
      .opt (.lit "_"),
      .opt (.group "read" (.seq (.lit "R") (.cls digitCls))),
      .opt (.lit "_"),
      .group "set" (.repCls digitCls 3 3),
      .group "extension" (.alt (.lit ".fastq") (.lit ".fastq.gz")),
      .eol ]

/-- Source pattern `IlluminaSeqidV1.pattern`:
`@(?P<instrument>[a-zA-Z0-9_-]*):(?P<lane>\d*):(?P<tile>\d*):(?P<x_pos>\d*):(?P<y_pos>\d*)(?P<index_number>#\d|[NACTG]*)\/(?P<read>\d)` -/
def IlluminaSeqidV1_pattern : RE :=
  seqList
    [ .lit "@",
      .group "instrument" (.starCls instrCls), .lit ":",
      .group "lane" (.starCls digitCls), .lit ":",
      .group "tile" (.starCls digitCls), .lit ":",
      .group "x_pos" (.starCls digitCls), .lit ":",
      .group "y_pos" (.starCls digitCls),
      .group "index_number" (.alt (.seq (.lit "#") (.cls digitCls)) (.starCls nactgCls)),
      .lit "/",
      .group "read" (.cls digitCls) ]

/-- Source pattern `IlluminaSeqidV2.pattern`:
`@(?P<instrument>[a-zA-Z0-9_-]*):(?P<run_number>\d*):(?P<flowcellID>[a-zA-Z0-9]*):(?P<lane>\d*):(?P<tile>\d*):(?P<x_pos>\d*):(?P<y_pos>\d*)\s(?P<read>\d*):(?P<is_filtered>[YN]):(?P<control_number>\d*):(?P<index_sequence>[NACTG]*)` -/
def IlluminaSeqidV2_pattern : RE :=
  seqList
    [ .lit "@",
      .group "instrument" (.starCls instrCls), .lit ":",
      .group "run_number" (.starCls digitCls), .lit ":",
      .group "flowcellID" (.starCls alnumCls), .lit ":",
      .group "lane" (.starCls digitCls), .lit ":",
      .group "tile" (.starCls digitCls), .lit ":",
      .group "x_pos" (.starCls digitCls), .lit ":",
      .group "y_pos" (.starCls digitCls),
      .cls wsCls,
      .group "read" (.starCls digitCls), .lit ":",
      .group "is_filtered" (.cls ynCls), .lit ":",
      .group "control_number" (.starCls digitCls), .lit ":",
      .group "index_sequence" (.starCls nactgCls) ]

/-! ## The record classifier (`Fastq.__init__`) -/

/-- Python `s.endswith(suffix)`, on the character sequences of the strings. -/
def pyEndsWith (s suffix : String) : Bool := suffix.data.isSuffixOf s.data

/-- Python `x or default` on the result of `gd.get(k)`: Python treats both `None` and
the empty string as falsy. -/
def pyOr (v : Option String) (dflt : String) : String :=
  match v with
  | none => dflt
  | some s => if s = "" then dflt else s

/-- Python `s.strip(c)`: remove every occurrence of `c` from both ends. -/
def pyStrip (c : Char) (s : String) : String :=
  String.mk (((s.data.dropWhile (· == c)).reverse.dropWhile (· == c)).reverse)

/-- Python `int(s)` on the decimal-digit strings produced by the patterns (the
`read` capture is `R` followed by one digit, and the fallback is `"1"`, so
after `strip` the argument is always a digit string). -/
def pyInt (s : String) : Nat :=
  s.data.foldl (fun n c => n * 10 + (c.toNat - Char.toNat '0')) 0

/-- The attributes `Fastq.__init__` stores on the object.  `fcid` is an
`Option` because `gd.get("flowcellID")` can be `None` (the V1 pattern has no
such group); `read` is the integer `int(read.strip('R'))`. -/
structure FastqMeta where
  path : String
  filename : String
  filename_pattern : Option String
  name : String
  lane : String
  read : Nat
  gzipped : Bool
  seqid : String
  seqid_pattern : Option String
  instrument : Option String
  run_number : Option String
  fcid : Option String
  readgroup : String
deriving DecidableEq

/-- One iteration of the filename-pattern loop: on a match, overwrite
`filename_pattern`, `name`, `lane` and `read`.  The loop body has no `break`,
so `classify` applies this to every pattern in the list in order. -/
def applyFilenamePattern (st : FastqMeta) (pat : String × RE) : FastqMeta :=
  match pymatch pat.2 st.filename with
  | none => st
  | some gd =>
      { st with
        filename_pattern := some pat.1
        name := (dget gd "name").getD ""
        lane := pyOr (dget gd "lane") "1"
        read := pyInt (pyStrip 'R' (pyOr (dget gd "read") "1")) }

/-- Source tuple `filename_patterns = (IlluminaFastqFilename, FastqFilename)`. -/
def filename_patterns : List (String × RE) :=
  [("IlluminaFastqFilename", IlluminaFastqFilename_pattern),
   ("FastqFilename", FastqFilename_pattern)]

/-- One iteration of the seqid-pattern loop: on a match, overwrite
`seqid_pattern`, `instrument`, `run_number`, `fcid`, and `lane` (the latter
only when the captured lane is non-empty, via `or`).  Again no `break`. -/
def applySeqidPattern (st : FastqMeta) (pat : String × RE) : FastqMeta :=
  match pymatch pat.2 st.seqid with
  | none => st
  | some gd =>
      { st with
        seqid_pattern := some pat.1
        instrument := dget gd "instrument"
        run_number := dget gd "run_number"
        fcid := dget gd "flowcellID"
        lane := pyOr (dget gd "lane") st.lane }

/-- Source tuple `seqid_patterns = (IlluminaSeqidV2, IlluminaSeqidV1)`. -/
def seqid_patterns : List (String × RE) :=
  [("IlluminaSeqidV2", IlluminaSeqidV2_pattern),
   ("IlluminaSeqidV1", IlluminaSeqidV1_pattern)]

/-- Python `str(x)` for the value stored in `fcid` (`str(None)` is `"None"`). -/
def pyStr (v : Option String) : String :=
  match v with
  | some s => s
  | none => "None"

/-- The metadata-resolution logic of `Fastq.__init__`, with the single line of
file I/O abstracted: `filename` is `os.path.basename(path)` and `firstLine` is
the stripped first line of the file.  Statement by statement:
  * the guard `if not FastqFilename.match(self.filename): raise ValueError`;
  * the filename-pattern loop — it contains no `break`, so every matching
    pattern overwrites the fields extracted by earlier ones;
  * `self.gzipped = self.path.endswith("gz")` (split over the two I/O
    branches in the source);
  * the seqid-pattern loop — again no `break`; and because the loop is never
    left by `break`, the Python `for`/`else` clause that follows it always
    executes, unconditionally resetting `seqid_pattern = None` and
    `fcid = "Unknown"`;
  * `self.readgroup = "{}{}".format(self.fcid, self.lane)`. -/
def classify (path filename firstLine : String) : Except String FastqMeta :=
  if (pymatch FastqFilename_pattern filename).isSome then
    let st : FastqMeta :=
      { path := path, filename := filename, filename_pattern := none,
        name := "", lane := "", read := 0,
        gzipped := pyEndsWith path "gz",
        seqid := firstLine, seqid_pattern := none,
        instrument := none, run_number := none, fcid := none, readgroup := "" }
    let st := filename_patterns.foldl applyFilenamePattern st
    let st := seqid_patterns.foldl applySeqidPattern st
    let st := { st with seqid_pattern := none, fcid := some "Unknown" }
    Except.ok { st with readgroup := pyStr st.fcid ++ st.lane }
  else
    Except.error " does not match fastq pattern"

/-! ## The read-count helper (`Fastq.length`) -/

/-- The loop variable of `i = 0; for i, l in enumerate(fq): pass`: the index
of the last line, or `0` when the iterable is empty. -/
def lastEnumIndex {α : Type} (lines : List α) : Nat :=
  (lines.enum).foldl (fun _ p => p.1) 0

/-- Source `Fastq.length` over the list of lines of the file: `(i + 1)/4` where `/`
is Python 3 true division, hence a rational, not an integer. -/
def fastqLength (lines : List String) : ℚ :=
  ((lastEnumIndex lines : ℚ) + 1) / 4

/-! ## The aggregator (`build_samples`) -/

/-- One entry of the `samples` dict: a Python dict that may lack the `name`
or `readgroups` key, hence two `Option` fields. -/
structure SampleEntry where
  name : Option String
  readgroups : Option (PyDict (List (Option String)))
deriving DecidableEq

/-- Append `None` to the list `k` times. -/
def padNone (l : List (Option String)) : Nat → List (Option String)
  | 0 => l
  | k + 1 => padNone (l ++ [none]) k

/-- The grow loop `while len(...) < fastq.read: append(None)`: every
iteration lengthens the list by one, so the loop body runs exactly
`fastq.read - len` times. -/
def growTo (l : List (Option String)) (n : Nat) : List (Option String) :=
  padNone l (n - l.length)

/-- The body of the `for fastq in fastqs` loop of `build_samples`, statement
by statement. -/
def addFastq (samples : PyDict SampleEntry) (fq : FastqMeta) : PyDict SampleEntry :=
  let samples :=
    if (dget samples fq.name).isSome then samples
    else dset samples fq.name { name := some fq.name, readgroups := none }
  let s := (dget samples fq.name).getD { name := none, readgroups := none }
  let s := if s.name.isSome then s else { s with name := some fq.name }
  let s := if s.readgroups.isSome then s else { s with readgroups := some [] }
  let rgs := s.readgroups.getD []
  let rgs :=
    if (dget rgs fq.readgroup).isSome then rgs
    else dset rgs fq.readgroup [none]
  let lst := (dget rgs fq.readgroup).getD []
  let lst := growTo lst fq.read
  let lst := lst.set (fq.read - 1) (some fq.path)
  dset samples fq.name { s with readgroups := some (dset rgs fq.readgroup lst) }

/-- Source `build_samples(fastqs)`. -/
def build_samples (fastqs : List FastqMeta) : PyDict SampleEntry :=
  fastqs.foldl addFastq []

/-! ## Discovery filter (`filter_paths`) -/

/-- Source `filter_paths(paths, filter)`: keep the paths for which `filter.match`
(anchored at the start of the path string) succeeds. -/
def filter_paths (paths : List String) (filt : RE) : List String :=
  paths.filter (fun path => (pymatch filt path).isSome)

/-! ## Serialization boundary

The JSON/YAML libraries are external collaborators; they enter as function
parameters.  Effects are explicit: an `OutFile` records the strings written
to the handle, and `load_samplesheet` returns alongside its result a flag
telling whether the source file was read. -/

/-- A writable file handle: the log of written strings and its flags. -/
structure OutFile where
  written : List String
  flushed : Bool
  closed : Bool
deriving DecidableEq

/-- Source `print_samplesheet(samplesheet, fp, format)`: pick the serializer by
format, raising `ValueError` — before anything is written — for any format
other than `"json"` and `"yaml"`; then write, flush and close. -/
def print_samplesheet {α : Type} (as_json_fn as_yaml_fn : α → String)
    (samplesheet : α) (fp : OutFile) (format : String) :
    Except String Unit × OutFile :=
  if format = "json" then
    (Except.ok (), { written := fp.written ++ [as_json_fn samplesheet], flushed := true, closed := true })
  else if format = "yaml" then
    (Except.ok (), { written := fp.written ++ [as_yaml_fn samplesheet], flushed := true, closed := true })
  else
    (Except.error ("Cant print samplesheets with \"" ++ format ++ "\""), fp)

/-- Source `load_samplesheet(path, format)`: pick the loader by format, raising
`ValueError` for any format other than `"yaml"` and `"json"` before the file
is opened; the boolean records whether the source was read. -/
def load_samplesheet {α : Type} (load_json_fn load_yaml_fn : String → α)
    (content : String) (format : String) : Except String α × Bool :=
  if format = "yaml" then (Except.ok (load_yaml_fn content), true)
  else if format = "json" then (Except.ok (load_json_fn content), true)
  else (Except.error ("Cant load samplesheets with \"" ++ format ++ "\""), false)

/-- The `--append` merge step of `discover`:
`if "samples" not in samplesheet: samplesheet["samples"] = samples` (written with single quotes in the source). -/
def append_samples {α : Type} (samplesheet : PyDict α) (samples : α) :
    PyDict α :=
  if (dget samplesheet "samples").isSome then samplesheet
  else dset samplesheet "samples" samples

/-! ## Derived views of the aggregate -/

/-- The readgroups dict of an optional sample entry: empty when the sample
or its `readgroups` key is missing. -/
def sampleRgs (s : Option SampleEntry) : PyDict (List (Option String)) :=
  (s.bind SampleEntry.readgroups).getD []

/-- The list stored for read group `rg` of sample `n`, if any. -/
def rgOf (samples : PyDict SampleEntry) (n rg : String) :
    Option (List (Option String)) :=
  dget (sampleRgs (dget samples n)) rg

/-- The records of `recs` that target sample `n` and read group `rg`. -/
def matching (recs : List FastqMeta) (n rg : String) : List FastqMeta :=
  recs.filter (fun r => r.name == n && r.readgroup == rg)

/-- The records of `matching recs n rg` whose read index is `k`. -/
def readFilter (recs : List FastqMeta) (n rg : String) (k : Nat) : List FastqMeta :=
  (matching recs n rg).filter (fun x => x.read == k)

/-- The highest read index among the records targeting `(n, rg)`. -/
def maxRead (recs : List FastqMeta) (n rg : String) : Nat :=
  ((matching recs n rg).map FastqMeta.read).foldl max 0

/-- The last-written path for slot `j` (read index `j + 1`) of `(n, rg)`,
or `none` when that slot is never written. -/
def slotVal (recs : List FastqMeta) (n rg : String) (j : Nat) : Option String :=
  ((readFilter recs n rg (j + 1)).map FastqMeta.path).getLast?

/-- The list the aggregation builds for `(n, rg)`: one slot per read index
up to the highest one, holding the last-written path of that slot. -/
def modelList (recs : List FastqMeta) (n rg : String) : List (Option String) :=
  (List.range (maxRead recs n rg)).map (fun j => slotVal recs n rg j)

/-! ## Concrete inputs used by the theorems -/

/-- An Illumina V2 sequence identifier with flow cell `FC123` and lane `7`. -/
def v2Line : String := "@M01:25:FC123:7:1101:15644:1043 1:N:0:GATTACA"

/-- The classified record of `SampleA_L001_R1_001.fastq.gz` with an
unmatched first line: the generic filename pattern wins (no `break`), so the
sample name is the whole stem and lane and read fall back to `1`. -/
def c3rec1 : FastqMeta :=
  { path := "/data/SampleA_L001_R1_001.fastq.gz",
    filename := "SampleA_L001_R1_001.fastq.gz",
    filename_pattern := some "FastqFilename",
    name := "SampleA_L001_R1_001", lane := "1", read := 1, gzipped := true,
    seqid := "@x", seqid_pattern := none, instrument := none,
    run_number := none, fcid := some "Unknown", readgroup := "Unknown1" }

/-- The classified record of `SampleA_L001_R2_001.fastq.gz`, likewise. -/
def c3rec2 : FastqMeta :=
  { path := "/data/SampleA_L001_R2_001.fastq.gz",
    filename := "SampleA_L001_R2_001.fastq.gz",
    filename_pattern := some "FastqFilename",
    name := "SampleA_L001_R2_001", lane := "1", read := 1, gzipped := true,
    seqid := "@x", seqid_pattern := none, instrument := none,
    run_number := none, fcid := some "Unknown", readgroup := "Unknown1" }

/-- A concrete intermediate samples dict for the C10 witness. -/
def w10samples : PyDict SampleEntry :=
  [("S", { name := some "S",
           readgroups := some [("Unknown1", [some "/old1"]), ("OtherRG", [some "/o"])] }),
   ("T", { name := some "T", readgroups := none })]

/-- A concrete record for the C10 witness. -/
def w10fq : FastqMeta :=
  { path := "/new2", filename := "n.fastq", filename_pattern := some "FastqFilename",
    name := "S", lane := "1", read := 2, gzipped := false, seqid := "@x",
    seqid_pattern := none, instrument := none, run_number := none,
    fcid := some "Unknown", readgroup := "Unknown1" }

/-- A record with read index 2, used by the C4 witness. -/
def w4r2 : FastqMeta :=
  { path := "/p2", filename := "a.fastq", filename_pattern := some "FastqFilename",
    name := "S", lane := "1", read := 2, gzipped := false, seqid := "@x",
    seqid_pattern := none, instrument := none, run_number := none,
    fcid := some "Unknown", readgroup := "Unknown1" }

/-- A record with read index 1, used by the C4 witness. -/
def w4r1 : FastqMeta :=
  { path := "/p1", filename := "b.fastq", filename_pattern := some "FastqFilename",
    name := "S", lane := "1", read := 1, gzipped := false, seqid := "@x",
    seqid_pattern := none, instrument := none, run_number := none,
    fcid := some "Unknown", readgroup := "Unknown1" }

/-! ## Basic dictionary lemmas -/

theorem dget_dset_self {β : Type} (d : PyDict β) (k : String) (v : β) :
    dget (dset d k v) k = some v := by
  induction d with
  | nil => simp [dset, dget]
  | cons hd t ih =>
      obtain ⟨k1, v1⟩ := hd
      by_cases h : k1 = k <;> simp [dset, dget, h, ih]

theorem dget_dset_ne {β : Type} (d : PyDict β) (k k2 : String) (v : β) (h : k2 ≠ k) :
    dget (dset d k v) k2 = dget d k2 := by
  have h3 : k ≠ k2 := Ne.symm h
  induction d with
  | nil => simp [dset, dget, h3]
  | cons hd t ih =>
      obtain ⟨k1, v1⟩ := hd
      by_cases h1 : k1 = k
      · subst h1
        simp [dset, dget, h3]
      · simp only [dset, if_neg h1, dget]
        by_cases h2 : k1 = k2 <;> simp [h2, ih]

/-! ## Claim theorems -/

/-- C5: the `--append` merge step of `discover` inserts the freshly built
`samples` mapping only when the loaded document has no `samples` key; when it
already has one the document is returned completely unchanged (independently
of the fresh samples, which are thereby discarded). -/
theorem append_only_when_samples_key_absent {α : Type} (sheet : PyDict α) (s : α) :
    ((dget sheet "samples").isSome = false →
      append_samples sheet s = dset sheet "samples" s) ∧
    (∀ v, dget sheet "samples" = some v → append_samples sheet s = sheet) := by
  constructor
  · intro h
    simp [append_samples, h]
  · intro v hv
    simp [append_samples, hv]

/-- Witness for C5 at concrete documents. -/
theorem append_only_when_samples_key_absent_witness :
    append_samples ([("other", 1)] : PyDict Nat) 5 = dset [("other", 1)] "samples" 5 ∧
    append_samples ([("samples", 2)] : PyDict Nat) 5 = [("samples", 2)] :=
  ⟨(append_only_when_samples_key_absent [("other", 1)] 5).1 (by decide),
   (append_only_when_samples_key_absent [("samples", 2)] 5).2 2 (by decide)⟩

/-- C8: for any format other than `json` and `yaml`, `print_samplesheet` and
`load_samplesheet` fail with the `ValueError` of the source and perform no
I/O: the output handle is returned unchanged (nothing written, not flushed,
not closed) and the source file is not read. -/
theorem unsupported_format_rejected_early {α : Type}
    (as_json_fn as_yaml_fn : α → String) (load_json_fn load_yaml_fn : String → α)
    (doc : α) (fp : OutFile) (content fmt : String)
    (h1 : fmt ≠ "json") (h2 : fmt ≠ "yaml") :
    print_samplesheet as_json_fn as_yaml_fn doc fp fmt =
      (Except.error ("Cant print samplesheets with \"" ++ fmt ++ "\""), fp) ∧
    load_samplesheet load_json_fn load_yaml_fn content fmt =
      (Except.error ("Cant load samplesheets with \"" ++ fmt ++ "\""), false) := by
  constructor
  · simp [print_samplesheet, h1, h2]
  · simp [load_samplesheet, h1, h2]

/-- Witness for C8 at the concrete format `xml`. -/
theorem unsupported_format_rejected_early_witness :
    print_samplesheet (fun n : Nat => toString n) (fun n => toString n) 7
        { written := [], flushed := false, closed := false } "xml" =
      (Except.error "Cant print samplesheets with \"xml\"",
        { written := [], flushed := false, closed := false }) ∧
    load_samplesheet (fun _ => (0 : Nat)) (fun _ => 0) "{}" "xml" =
      (Except.error "Cant load samplesheets with \"xml\"", false) :=
  unsupported_format_rejected_early _ _ _ _ 7 _ "{}" "xml"
    (by decide) (by decide)

/-- C9: `filter_paths` keeps exactly the paths on which the user pattern
matches with `re.match` semantics, i.e. anchored at the start of the full
path string; a literal pattern matches a path exactly when it is a prefix
of it, and in the concrete scenario of the spec the pattern `y\.fastq`,
which occurs in `/b/y.fastq` only as a suffix, selects nothing, while the
prefix pattern `/a/` selects exactly `/a/x.fastq`. -/
theorem filter_paths_prefix_match (paths : List String) (filt : RE) (p : String) :
    (p ∈ filter_paths paths filt ↔ p ∈ paths ∧ (pymatch filt p).isSome = true) ∧
    (∀ s q : String, (pymatch (RE.lit s) q).isSome = s.data.isPrefixOf q.data) ∧
    filter_paths ["/a/x.fastq", "/b/y.fastq"] (RE.lit "y.fastq") = [] ∧
    filter_paths ["/a/x.fastq", "/b/y.fastq"] (RE.lit "/a/") = ["/a/x.fastq"] := by
  refine ⟨?_, ?_, by decide, by decide⟩
  · simp [filter_paths, List.mem_filter]
  · intro s q
    by_cases h : s.data.isPrefixOf q.data = true <;>
      simp [pymatch, mrun, h]

/-- Witness for C9 at a concrete path list and pattern. -/
theorem filter_paths_prefix_match_witness :
    ("/b/y.fastq" ∈ filter_paths ["/a/x.fastq", "/b/y.fastq"] (RE.lit "y.fastq") ↔
      "/b/y.fastq" ∈ ["/a/x.fastq", "/b/y.fastq"] ∧
        (pymatch (RE.lit "y.fastq") "/b/y.fastq").isSome = true) ∧
    filter_paths ["/a/x.fastq", "/b/y.fastq"] (RE.lit "y.fastq") = [] :=
  ⟨(filter_paths_prefix_match ["/a/x.fastq", "/b/y.fastq"] (RE.lit "y.fastq")
      "/b/y.fastq").1,
   (filter_paths_prefix_match ["/a/x.fastq", "/b/y.fastq"] (RE.lit "y.fastq")
      "/b/y.fastq").2.2.1⟩

/-! ## Aggregation lemmas -/

theorem dset_dset {β : Type} (d : PyDict β) (k : String) (v w : β) :
    dset (dset d k v) k w = dset d k w := by
  induction d with
  | nil => simp [dset]
  | cons hd t ih =>
      obtain ⟨k1, v1⟩ := hd
      by_cases h : k1 = k <;> simp [dset, h, ih]

theorem padNone_eq (k : Nat) (l : List (Option String)) :
    padNone l k = l ++ List.replicate k none := by
  induction k generalizing l with
  | zero => simp [padNone]
  | succ m ih => simp [padNone, ih, List.replicate_succ]

theorem growTo_eq (l : List (Option String)) (n : Nat) :
    growTo l n = l ++ List.replicate (n - l.length) none := by
  rw [growTo, padNone_eq]

theorem growTo_length (l : List (Option String)) (n : Nat) :
    (growTo l n).length = max l.length n := by
  rw [growTo_eq]
  simp only [List.length_append, List.length_replicate]
  omega

theorem growTo_get? (l : List (Option String)) (n j : Nat) :
    (growTo l n).get? j =
      if j < l.length then l.get? j else if j < n then some none else none := by
  rw [growTo_eq]
  by_cases h1 : j < l.length
  · rw [List.get?_append h1, if_pos h1]
  · rw [List.get?_append_right (Nat.le_of_not_lt h1), if_neg h1,
      List.get?_eq_getElem?, List.getElem?_replicate]
    by_cases h2 : j < n
    · rw [if_pos (by omega), if_pos h2]
    · rw [if_neg (by omega), if_neg h2]

/-- Closed form of one aggregation step: `addFastq` rewrites exactly the
entry of `fq.name`, whose `name` field keeps its old value when one was
present, and whose readgroups dict gets exactly the key `fq.readgroup`
rebound to the grown-and-written list. -/
theorem addFastq_eq (samples : PyDict SampleEntry) (fq : FastqMeta) :
    addFastq samples fq =
      dset samples fq.name
        { name := some (((dget samples fq.name).bind SampleEntry.name).getD fq.name),
          readgroups := some (dset (sampleRgs (dget samples fq.name)) fq.readgroup
            ((growTo ((rgOf samples fq.name fq.readgroup).getD [none]) fq.read).set
              (fq.read - 1) (some fq.path))) } := by
  unfold addFastq rgOf sampleRgs
  cases h1 : dget samples fq.name with
  | none =>
      simp [h1, dget_dset_self, dset_dset, dget]
  | some s0 =>
      obtain ⟨nm, org⟩ := s0
      cases org with
      | none => cases nm <;> simp [h1, dget_dset_self, dset_dset, dget]
      | some rgs0 =>
          cases h2 : dget rgs0 fq.readgroup with
          | none => cases nm <;> simp [h1, h2, dget_dset_self, dset_dset]
          | some lst0 => cases nm <;> simp [h1, h2, dget_dset_self, dset_dset]

theorem addFastq_rgOf_self (samples : PyDict SampleEntry) (fq : FastqMeta) :
    rgOf (addFastq samples fq) fq.name fq.readgroup =
      some ((growTo ((rgOf samples fq.name fq.readgroup).getD [none]) fq.read).set
        (fq.read - 1) (some fq.path)) := by
  rw [rgOf, addFastq_eq, dget_dset_self]
  simp [sampleRgs, dget_dset_self]

theorem addFastq_dget_ne (samples : PyDict SampleEntry) (fq : FastqMeta)
    (n : String) (h : n ≠ fq.name) :
    dget (addFastq samples fq) n = dget samples n := by
  rw [addFastq_eq, dget_dset_ne _ _ _ _ h]

theorem addFastq_rgOf_ne (samples : PyDict SampleEntry) (fq : FastqMeta)
    (n rg : String) (h : rg ≠ fq.readgroup) :
    rgOf (addFastq samples fq) n rg = rgOf samples n rg := by
  by_cases hn : n = fq.name
  · subst hn
    simp only [rgOf, addFastq_eq, dget_dset_self, sampleRgs, Option.some_bind,
      Option.getD_some]
    rw [dget_dset_ne _ _ _ _ h]
  · rw [rgOf, addFastq_dget_ne _ _ _ hn, rgOf]

theorem addFastq_rgOf_other (samples : PyDict SampleEntry) (fq : FastqMeta)
    (n rg : String) (h : ¬(fq.name = n ∧ fq.readgroup = rg)) :
    rgOf (addFastq samples fq) n rg = rgOf samples n rg := by
  by_cases hn : n = fq.name
  · subst hn
    refine addFastq_rgOf_ne samples fq _ rg (fun hrg => h ⟨rfl, hrg.symm⟩)
  · rw [rgOf, addFastq_dget_ne _ _ _ hn, rgOf]

/-- C10: one aggregation step is frame-preserving.  For any intermediate
`samples` dict and any record with a positive read index: every sample entry
other than the sample of the record is untouched; every read-group list other
than the read group of the record is untouched (in every sample); and in the
targeted read-group list the step yields a list in which every slot other
than index `read - 1` either keeps its previous value or is a newly
appended `None` beyond the old length, and which is never shorter than the
previous list. -/
theorem aggregation_step_frame (samples : PyDict SampleEntry) (fq : FastqMeta)
    (hr : 1 ≤ fq.read) :
    (∀ n, n ≠ fq.name → dget (addFastq samples fq) n = dget samples n) ∧
    (∀ n rg, rg ≠ fq.readgroup →
      rgOf (addFastq samples fq) n rg = rgOf samples n rg) ∧
    (∃ lst, rgOf (addFastq samples fq) fq.name fq.readgroup = some lst ∧
      (∀ prev, rgOf samples fq.name fq.readgroup = some prev →
        prev.length ≤ lst.length ∧
        ∀ j, j ≠ fq.read - 1 →
          lst.get? j = prev.get? j ∨ (prev.length ≤ j ∧ lst.get? j = some none)) ∧
      (rgOf samples fq.name fq.readgroup = none →
        ∀ j, j ≠ fq.read - 1 → lst.get? j = some none ∨ lst.get? j = none)) := by
  refine ⟨fun n hn => addFastq_dget_ne samples fq n hn,
    fun n rg hrg => addFastq_rgOf_ne samples fq n rg hrg,
    _, addFastq_rgOf_self samples fq, ?_, ?_⟩
  · intro prev hprev
    rw [hprev, Option.getD_some]
    constructor
    · rw [List.length_set, growTo_length]
      omega
    · intro j hj
      rw [List.get?_set_ne _ _ (fun hh => hj hh.symm), growTo_get?]
      by_cases h1 : j < prev.length
      · rw [if_pos h1]
        exact Or.inl rfl
      · rw [if_neg h1]
        by_cases h2 : j < fq.read
        · rw [if_pos h2]
          exact Or.inr ⟨Nat.le_of_not_lt h1, rfl⟩
        · rw [if_neg h2]
          exact Or.inl ((List.get?_eq_none.2 (Nat.le_of_not_lt h1)).symm)
  · intro hnone j hj
    rw [hnone, Option.getD_none]
    rw [List.get?_set_ne _ _ (fun hh => hj hh.symm), growTo_get?]
    by_cases h1 : j < 1
    · rw [if_pos (by simpa using h1)]
      interval_cases j
      exact Or.inl rfl
    · rw [if_neg (by simpa using h1)]
      by_cases h2 : j < fq.read
      · rw [if_pos h2]
        exact Or.inl rfl
      · rw [if_neg h2]
        exact Or.inr rfl

/-- Witness for C10 at a concrete state and record. -/
theorem aggregation_step_frame_witness :
    dget (addFastq w10samples w10fq) "T" = dget w10samples "T" ∧
    rgOf (addFastq w10samples w10fq) "S" "OtherRG" = rgOf w10samples "S" "OtherRG" :=
  ⟨(aggregation_step_frame w10samples w10fq (by decide)).1 "T" (by decide),
   (aggregation_step_frame w10samples w10fq (by decide)).2.1 "S" "OtherRG" (by decide)⟩

/-! ## Concrete classifier evaluations -/

/-- C1: contrary to the claim, the flow-cell id of a classified file is the
literal `Unknown` even when the first line matches the Illumina V2 pattern
and that pattern captures a flow cell: the seqid loop of `Fastq.__init__`
contains no `break`, so the `for`/`else` clause after it always runs and
overwrites `fcid` with `Unknown` (and `seqid_pattern` with `None`).  The V2
lane still overrides the filename lane, so the read-group key becomes
`Unknown7`, not `FC1237`. -/
theorem flowcell_always_unknown_despite_v2_match :
    dget ((pymatch IlluminaSeqidV2_pattern v2Line).getD []) "flowcellID" = some "FC123" ∧
    classify "/data/sample.fastq" "sample.fastq" v2Line =
      Except.ok
        { path := "/data/sample.fastq", filename := "sample.fastq",
          filename_pattern := some "FastqFilename", name := "sample",
          lane := "7", read := 1, gzipped := false, seqid := v2Line,
          seqid_pattern := none, instrument := some "M01",
          run_number := some "25", fcid := some "Unknown",
          readgroup := "Unknown7" } := by
  constructor
  · rfl
  · rfl

/-- C2: contrary to the claim, pattern matching over the ordered pattern
lists is last-match-wins, not first-match-wins: on
`SampleA_L001_R1_001.fastq` the first filename pattern
(`IlluminaFastqFilename`) matches and captures name `SampleA`, lane `L001`,
read `R1`, yet the loop has no `break`, so the second pattern
(`FastqFilename`) is still tried, also matches, and its fields — name
`SampleA_L001_R1_001`, default lane `1`, default read `1` — are the ones the
classifier reports. -/
theorem filename_patterns_last_match_wins :
    dget ((pymatch IlluminaFastqFilename_pattern "SampleA_L001_R1_001.fastq").getD [])
        "name" = some "SampleA" ∧
    dget ((pymatch FastqFilename_pattern "SampleA_L001_R1_001.fastq").getD [])
        "name" = some "SampleA_L001_R1_001" ∧
    classify "/d/SampleA_L001_R1_001.fastq" "SampleA_L001_R1_001.fastq" "@x" =
      Except.ok
        { path := "/d/SampleA_L001_R1_001.fastq",
          filename := "SampleA_L001_R1_001.fastq",
          filename_pattern := some "FastqFilename",
          name := "SampleA_L001_R1_001", lane := "1", read := 1,
          gzipped := false, seqid := "@x", seqid_pattern := none,
          instrument := none, run_number := none, fcid := some "Unknown",
          readgroup := "Unknown1" } := by
  refine ⟨rfl, rfl, rfl⟩

/-- C3, counterexample: classifying the two files of the spec scenario and
aggregating them produces no sample named `SampleA` at all, because the
filename-pattern loop has no `break` and the generic pattern therefore
renames each file to its whole stem. -/
theorem spec_scenario_has_no_sample_SampleA :
    classify "/data/SampleA_L001_R1_001.fastq.gz" "SampleA_L001_R1_001.fastq.gz" "@x" =
      Except.ok c3rec1 ∧
    classify "/data/SampleA_L001_R2_001.fastq.gz" "SampleA_L001_R2_001.fastq.gz" "@x" =
      Except.ok c3rec2 ∧
    dget (build_samples [c3rec1, c3rec2]) "SampleA" = none := by
  refine ⟨rfl, rfl, rfl⟩

/-- C3, amended: the two files of the scenario aggregate to two separate
samples, `SampleA_L001_R1_001` and `SampleA_L001_R2_001`, each with the
single read group `Unknown1` holding the one-element sequence with its own
path (both records carry read index 1, the generic-pattern default). -/
theorem spec_scenario_actual_aggregate :
    build_samples [c3rec1, c3rec2] =
      [("SampleA_L001_R1_001",
        { name := some "SampleA_L001_R1_001",
          readgroups := some [("Unknown1", [some "/data/SampleA_L001_R1_001.fastq.gz"])] }),
       ("SampleA_L001_R2_001",
        { name := some "SampleA_L001_R2_001",
          readgroups := some [("Unknown1", [some "/data/SampleA_L001_R2_001.fastq.gz"])] })] := by
  rfl

/-- C6: contrary to the claim, the extension gate is not exactly "ends with
`.fastq`, `.fastq.gz`, `.fq` or `.fq.gz`": the last alternative of
`FastqFilename.pattern` reads `fq\.gz` without the leading `\.`, so the base
name `sample_fq.gz`, which ends with none of the four extensions, passes the
gate and is classified successfully. -/
theorem extension_gate_accepts_undotted_fq_gz :
    (pymatch FastqFilename_pattern "sample_fq.gz").isSome = true ∧
    pyEndsWith "sample_fq.gz" ".fastq" = false ∧
    pyEndsWith "sample_fq.gz" ".fastq.gz" = false ∧
    pyEndsWith "sample_fq.gz" ".fq" = false ∧
    pyEndsWith "sample_fq.gz" ".fq.gz" = false ∧
    (classify "sample_fq.gz" "sample_fq.gz" "@x").toOption.isSome = true := by
  refine ⟨rfl, by decide, by decide, by decide, by decide, rfl⟩

/-! ## Characterization of the aggregate (for the order-independence claim) -/

theorem self_le_foldl_max (l : List Nat) (b : Nat) : b ≤ l.foldl max b := by
  induction l generalizing b with
  | nil => exact Nat.le_refl b
  | cons x t ih => exact Nat.le_trans (Nat.le_max_left b x) (ih (max b x))

theorem le_foldl_max (l : List Nat) (b a : Nat) (h : a ∈ l) : a ≤ l.foldl max b := by
  induction l generalizing b with
  | nil => cases h
  | cons x t ih =>
      rcases List.mem_cons.1 h with rfl | h2
      · exact Nat.le_trans (Nat.le_max_right b a) (self_le_foldl_max t (max b a))
      · exact ih (max b x) h2

theorem matching_concat_pos (l : List FastqMeta) (r : FastqMeta) :
    matching (l ++ [r]) r.name r.readgroup = matching l r.name r.readgroup ++ [r] := by
  simp [matching, List.filter_append]

theorem matching_concat_neg (l : List FastqMeta) (r : FastqMeta) (n rg : String)
    (h : ¬(r.name = n ∧ r.readgroup = rg)) :
    matching (l ++ [r]) n rg = matching l n rg := by
  have hb : (r.name == n && r.readgroup == rg) = false := by
    by_cases h1 : r.name = n
    · by_cases h2 : r.readgroup = rg
      · exact absurd ⟨h1, h2⟩ h
      · simp [h1, h2]
    · simp [h1]
  simp [matching, List.filter_append, hb]

theorem maxRead_concat_pos (l : List FastqMeta) (r : FastqMeta) :
    maxRead (l ++ [r]) r.name r.readgroup = max (maxRead l r.name r.readgroup) r.read := by
  rw [maxRead, matching_concat_pos, List.map_append, List.foldl_append]
  rfl

theorem read_le_maxRead (recs : List FastqMeta) (n rg : String) (x : FastqMeta)
    (hx : x ∈ matching recs n rg) : x.read ≤ maxRead recs n rg :=
  le_foldl_max _ _ _ (List.mem_map_of_mem FastqMeta.read hx)

theorem modelList_length (recs : List FastqMeta) (n rg : String) :
    (modelList recs n rg).length = maxRead recs n rg := by
  simp [modelList]

theorem modelList_get? (recs : List FastqMeta) (n rg : String) (j : Nat) :
    (modelList recs n rg).get? j =
      if j < maxRead recs n rg then some (slotVal recs n rg j) else none := by
  rw [modelList, List.get?_map]
  by_cases h : j < maxRead recs n rg
  · rw [List.get?_range h, if_pos h]
    rfl
  · rw [if_neg h, List.get?_eq_none.2 (by simpa using Nat.le_of_not_lt h)]
    rfl

theorem slotVal_concat_eq (l : List FastqMeta) (r : FastqMeta) (j : Nat)
    (hj : r.read = j + 1) :
    slotVal (l ++ [r]) r.name r.readgroup j = some r.path := by
  rw [slotVal, readFilter, matching_concat_pos, List.filter_append]
  simp [hj, List.getLast?_concat]

theorem slotVal_concat_ne (l : List FastqMeta) (r : FastqMeta) (n rg : String) (j : Nat)
    (h : r.read ≠ j + 1) :
    slotVal (l ++ [r]) n rg j = slotVal l n rg j := by
  rw [slotVal, slotVal, readFilter, readFilter]
  by_cases hnr : r.name = n ∧ r.readgroup = rg
  · obtain ⟨h1, h2⟩ := hnr
    subst h1
    subst h2
    rw [matching_concat_pos, List.filter_append]
    simp [h]
  · rw [matching_concat_neg l r n rg hnr]

theorem slotVal_of_max_le (recs : List FastqMeta) (n rg : String) (j : Nat)
    (h : maxRead recs n rg ≤ j) : slotVal recs n rg j = none := by
  rw [slotVal]
  have hnil : readFilter recs n rg (j + 1) = [] := by
    rw [readFilter, List.filter_eq_nil_iff]
    intro x hx
    have := read_le_maxRead recs n rg x hx
    simp only [beq_iff_eq]
    omega
  rw [hnil]
  rfl

theorem modelList_concat_neg (l : List FastqMeta) (r : FastqMeta) (n rg : String)
    (h : ¬(r.name = n ∧ r.readgroup = rg)) :
    modelList (l ++ [r]) n rg = modelList l n rg := by
  simp only [modelList, maxRead, slotVal, readFilter, matching_concat_neg l r n rg h]

theorem modelList_step_nil (l : List FastqMeta) (r : FastqMeta)
    (hr : 1 ≤ r.read) (hml : matching l r.name r.readgroup = []) :
    (growTo [none] r.read).set (r.read - 1) (some r.path) =
      modelList (l ++ [r]) r.name r.readgroup := by
  have hmax0 : maxRead l r.name r.readgroup = 0 := by
    rw [maxRead, hml]
    rfl
  have hmax : maxRead (l ++ [r]) r.name r.readgroup = r.read := by
    rw [maxRead_concat_pos, hmax0]
    omega
  apply List.ext_get?
  intro j
  by_cases hj : j = r.read - 1
  · subst hj
    rw [List.get?_set_eq_of_lt _ (by rw [growTo_length]; simp; omega),
      modelList_get?, hmax, if_pos (by omega),
      slotVal_concat_eq l r (r.read - 1) (by omega)]
  · have hsv : slotVal (l ++ [r]) r.name r.readgroup j = none := by
      rw [slotVal_concat_ne l r _ _ j (by omega), slotVal, readFilter, hml]
      rfl
    rw [List.get?_set_ne _ _ (fun hh => hj hh.symm), growTo_get?,
      modelList_get?, hmax, hsv]
    simp only [List.length_singleton]
    by_cases h1 : j < 1
    · have hj0 : j = 0 := by omega
      subst hj0
      rw [if_pos h1, if_pos (by omega)]
      rfl
    · rw [if_neg h1]

theorem modelList_step_cons (l : List FastqMeta) (r : FastqMeta) (hr : 1 ≤ r.read) :
    (growTo (modelList l r.name r.readgroup) r.read).set (r.read - 1) (some r.path) =
      modelList (l ++ [r]) r.name r.readgroup := by
  have hmax : maxRead (l ++ [r]) r.name r.readgroup
      = max (maxRead l r.name r.readgroup) r.read := maxRead_concat_pos l r
  apply List.ext_get?
  intro j
  by_cases hj : j = r.read - 1
  · subst hj
    rw [List.get?_set_eq_of_lt _
        (by rw [growTo_length, modelList_length]; omega),
      modelList_get? (l ++ [r]), hmax, if_pos (by omega),
      slotVal_concat_eq l r (r.read - 1) (by omega)]
  · rw [List.get?_set_ne _ _ (fun hh => hj hh.symm), growTo_get?, modelList_length,
      modelList_get? (l ++ [r]), hmax, slotVal_concat_ne l r _ _ j (by omega)]
    by_cases h1 : j < maxRead l r.name r.readgroup
    · rw [if_pos h1, modelList_get?, if_pos h1, if_pos (by omega)]
    · rw [if_neg h1]
      by_cases h2 : j < r.read
      · rw [if_pos h2, if_pos (by omega), slotVal_of_max_le l _ _ j (by omega)]
      · rw [if_neg h2, if_neg (by omega)]

/-- What `build_samples` stores for each `(sample, read group)` pair: nothing
when no record targets the pair, and otherwise the slot list described by
`modelList`. -/
theorem build_samples_rgOf (recs : List FastqMeta) (n rg : String) :
    (∀ r ∈ recs, 1 ≤ r.read) →
    rgOf (build_samples recs) n rg =
      if matching recs n rg = [] then none else some (modelList recs n rg) := by
  induction recs using List.reverseRecOn with
  | nil =>
      intro _
      simp [build_samples, rgOf, sampleRgs, dget, matching]
  | append_singleton l r ih =>
      intro hr
      have hrl : ∀ x ∈ l, 1 ≤ x.read := fun x hx => hr x (by simp [hx])
      have hrr : 1 ≤ r.read := hr r (by simp)
      have hbuild : build_samples (l ++ [r]) = addFastq (build_samples l) r := by
        rw [build_samples, List.foldl_append]
        rfl
      rw [hbuild]
      by_cases hcase : r.name = n ∧ r.readgroup = rg
      · obtain ⟨h1, h2⟩ := hcase
        subst h1
        subst h2
        rw [addFastq_rgOf_self, ih hrl, matching_concat_pos]
        by_cases hml : matching l r.name r.readgroup = []
        · rw [if_pos hml, hml]
          simp only [Option.getD_none, List.nil_append]
          rw [if_neg (by simp), modelList_step_nil l r hrr hml]
        · rw [if_neg hml]
          simp only [Option.getD_some]
          rw [if_neg (by simp), modelList_step_cons l r hrr]
      · rw [addFastq_rgOf_other _ _ _ _ hcase, ih hrl, matching_concat_neg l r n rg hcase]
        by_cases hml : matching l n rg = []
        · rw [if_pos hml, if_pos hml]
        · rw [if_neg hml, if_neg hml, modelList_concat_neg l r n rg hcase]

theorem mem_readFilter_eq (recs : List FastqMeta) (n rg : String) (k : Nat)
    (x : FastqMeta) (hx : x ∈ readFilter recs n rg k) :
    x ∈ recs ∧ x.name = n ∧ x.readgroup = rg ∧ x.read = k := by
  simp only [readFilter, matching, List.mem_filter, Bool.and_eq_true, beq_iff_eq] at hx
  tauto

theorem readFilter_sublist (recs : List FastqMeta) (n rg : String) (k : Nat) :
    (readFilter recs n rg k).Sublist recs :=
  (List.filter_sublist _).trans (List.filter_sublist _)

theorem readFilter_length_le_one (recs : List FastqMeta)
    (hd : recs.Pairwise (fun a b => (a.name, a.readgroup, a.read) ≠ (b.name, b.readgroup, b.read)))
    (n rg : String) (k : Nat) :
    (readFilter recs n rg k).length ≤ 1 := by
  have hpw := List.Pairwise.sublist (readFilter_sublist recs n rg k) hd
  cases hf : readFilter recs n rg k with
  | nil => simp
  | cons a t0 =>
      cases t0 with
      | nil => simp
      | cons b t =>
          exfalso
          rw [hf] at hpw
          have hab := (List.pairwise_cons.1 hpw).1 b (by simp)
          have ha := mem_readFilter_eq recs n rg k a (by rw [hf]; simp)
          have hb := mem_readFilter_eq recs n rg k b (by rw [hf]; simp)
          apply hab
          rw [ha.2.1, ha.2.2.1, ha.2.2.2, hb.2.1, hb.2.2.1, hb.2.2.2]

theorem readFilter_eq_singleton (recs : List FastqMeta)
    (hd : recs.Pairwise (fun a b => (a.name, a.readgroup, a.read) ≠ (b.name, b.readgroup, b.read)))
    (r : FastqMeta) (hmem : r ∈ recs) :
    readFilter recs r.name r.readgroup r.read = [r] := by
  have hrin : r ∈ readFilter recs r.name r.readgroup r.read := by
    simp [readFilter, matching, List.mem_filter, hmem]
  have hlen := readFilter_length_le_one recs hd r.name r.readgroup r.read
  cases hf : readFilter recs r.name r.readgroup r.read with
  | nil =>
      rw [hf] at hrin
      cases hrin
  | cons a t =>
      rw [hf] at hrin hlen
      have ht : t = [] := by
        cases t with
        | nil => rfl
        | cons b t2 => simp at hlen
      subst ht
      have hra : r = a := by simpa using hrin
      rw [hra]

theorem perm_eq_of_length_le_one {α : Type} {l1 l2 : List α}
    (h : l1.Perm l2) (hl : l1.length ≤ 1) : l1 = l2 := by
  cases l1 with
  | nil => exact (h.nil_eq)
  | cons a t =>
      cases t with
      | nil => exact (List.perm_singleton.1 h.symm).symm
      | cons b t2 => simp at hl

theorem maxRead_perm (recs recs2 : List FastqMeta) (h : recs.Perm recs2) (n rg : String) :
    maxRead recs n rg = maxRead recs2 n rg := by
  rw [maxRead, maxRead]
  refine List.Perm.foldl_eq' ?_ ?_ 0
  · exact List.Perm.map FastqMeta.read (by simpa [matching] using h.filter _)
  · intro x _ y _ z
    exact Nat.max_right_comm z x y

theorem slotVal_perm (recs recs2 : List FastqMeta) (h : recs.Perm recs2)
    (hd : recs.Pairwise (fun a b => (a.name, a.readgroup, a.read) ≠ (b.name, b.readgroup, b.read)))
    (n rg : String) (j : Nat) :
    slotVal recs n rg j = slotVal recs2 n rg j := by
  have hperm : (readFilter recs n rg (j + 1)).Perm (readFilter recs2 n rg (j + 1)) := by
    simp only [readFilter, matching]
    exact (h.filter _).filter _
  have heq : readFilter recs n rg (j + 1) = readFilter recs2 n rg (j + 1) :=
    perm_eq_of_length_le_one hperm (readFilter_length_le_one recs hd n rg (j + 1))
  rw [slotVal, slotVal, heq]

theorem modelList_perm (recs recs2 : List FastqMeta) (h : recs.Perm recs2)
    (hd : recs.Pairwise (fun a b => (a.name, a.readgroup, a.read) ≠ (b.name, b.readgroup, b.read)))
    (n rg : String) :
    modelList recs n rg = modelList recs2 n rg := by
  have hf : (fun j => slotVal recs n rg j) = (fun j => slotVal recs2 n rg j) := by
    funext j
    exact slotVal_perm recs recs2 h hd n rg j
  rw [modelList, modelList, maxRead_perm recs recs2 h n rg, hf]

/-- C4: aggregating records whose `(sampleName, readGroupKey, readIndex)`
triples are pairwise distinct (and whose read indices are positive, per the
record invariant) stores, for the read group of every record, a list whose
length is the highest read index seen for that read group, whose slot
`readIndex - 1` holds the path of that record, and whose never-written slots
below the length hold `None`; moreover, permuting the input records leaves
every stored read-group list unchanged, so input order does not affect slot
placement. -/
theorem aggregation_characterizes_slots (recs : List FastqMeta)
    (hd : recs.Pairwise (fun a b => (a.name, a.readgroup, a.read) ≠ (b.name, b.readgroup, b.read)))
    (hr : ∀ r ∈ recs, 1 ≤ r.read) :
    (∀ r ∈ recs, ∃ lst, rgOf (build_samples recs) r.name r.readgroup = some lst ∧
      lst.length = maxRead recs r.name r.readgroup ∧
      lst.get? (r.read - 1) = some (some r.path) ∧
      ∀ j, j < lst.length →
        (∀ x ∈ recs, ¬(x.name = r.name ∧ x.readgroup = r.readgroup ∧ x.read = j + 1)) →
        lst.get? j = some none) ∧
    (∀ recs2, recs.Perm recs2 → ∀ n rg,
      rgOf (build_samples recs2) n rg = rgOf (build_samples recs) n rg) := by
  constructor
  · intro r hmem
    have hmm : r ∈ matching recs r.name r.readgroup := by
      simp [matching, List.mem_filter, hmem]
    have hne : matching recs r.name r.readgroup ≠ [] := List.ne_nil_of_mem hmm
    have hle : r.read ≤ maxRead recs r.name r.readgroup :=
      read_le_maxRead recs r.name r.readgroup r hmm
    have hr1 : 1 ≤ r.read := hr r hmem
    refine ⟨modelList recs r.name r.readgroup, ?_, modelList_length _ _ _, ?_, ?_⟩
    · rw [build_samples_rgOf recs r.name r.readgroup hr, if_neg hne]
    · rw [modelList_get?, if_pos (by omega)]
      have hplus : r.read - 1 + 1 = r.read := by omega
      rw [slotVal, hplus, readFilter_eq_singleton recs hd r hmem]
      rfl
    · intro j hjlen hnone
      rw [modelList_length] at hjlen
      rw [modelList_get?, if_pos hjlen]
      have hemp : readFilter recs r.name r.readgroup (j + 1) = [] := by
        cases hfe : readFilter recs r.name r.readgroup (j + 1) with
        | nil => rfl
        | cons a t =>
            exfalso
            have ha := mem_readFilter_eq recs r.name r.readgroup (j + 1) a
              (by rw [hfe]; simp)
            exact hnone a ha.1 ⟨ha.2.1, ha.2.2.1, ha.2.2.2⟩
      rw [slotVal, hemp]
      rfl
  · intro recs2 hperm n rg
    have hr2 : ∀ x ∈ recs2, 1 ≤ x.read := fun x hx => hr x (hperm.mem_iff.mpr hx)
    rw [build_samples_rgOf recs n rg hr, build_samples_rgOf recs2 n rg hr2]
    have hmperm : (matching recs n rg).Perm (matching recs2 n rg) := by
      simp only [matching]
      exact hperm.filter _
    by_cases hml : matching recs n rg = []
    · rw [if_pos hml]
      have hml2 : matching recs2 n rg = [] := by
        rw [hml] at hmperm
        exact (hmperm.nil_eq).symm
      rw [if_pos hml2]
    · rw [if_neg hml]
      have hml2 : matching recs2 n rg ≠ [] := by
        intro hcon
        rw [hcon] at hmperm
        exact hml hmperm.eq_nil
      rw [if_neg hml2, modelList_perm recs recs2 hperm hd n rg]

/-- Witness for C4 at the two-record scenario of the spec (read indices
`{2, 1}` arriving in that order). -/
theorem aggregation_characterizes_slots_witness :
    ∃ lst, rgOf (build_samples [w4r2, w4r1]) w4r2.name w4r2.readgroup = some lst ∧
      lst.length = maxRead [w4r2, w4r1] w4r2.name w4r2.readgroup ∧
      lst.get? (w4r2.read - 1) = some (some w4r2.path) ∧
      ∀ j, j < lst.length →
        (∀ x ∈ [w4r2, w4r1],
          ¬(x.name = w4r2.name ∧ x.readgroup = w4r2.readgroup ∧ x.read = j + 1)) →
        lst.get? j = some none :=
  (aggregation_characterizes_slots [w4r2, w4r1] (by decide) (by decide)).1 w4r2
    (by simp)

/-- C7: contrary to the claim, the read-count helper does not return the
integer `floor(lineCount / 4)`: `(i + 1)/4` uses Python 3 true division, and
for an empty file the pre-initialized loop index `i = 0` survives, so an
empty file yields `1/4` (not `0`) and a 5-line file yields `5/4` (not `1`). -/
theorem read_count_uses_true_division :
    fastqLength [] = 1 / 4 ∧ fastqLength [] ≠ 0 ∧
    fastqLength ["a", "b", "c", "d", "e"] = 5 / 4 ∧
    fastqLength ["a", "b", "c", "d", "e"] ≠ 1 := by
  refine ⟨?_, ?_, ?_, ?_⟩ <;> norm_num [fastqLength, lastEnumIndex, List.enum]

end Tidyss

